import Mathlib

/-!
Verification of the go-promises library (package promises).

The development is a shallow embedding of the source files:
- the promise state machine (struct impl, methods resolve, reject, Wait, Done)
  becomes a record with a Bool field done standing for "the done channel is
  closed"; the channel close is the one-shot broadcast;
- Go errors (interface error, nil-able) become GoError = Option ErrVal, where
  ErrVal covers the error values the library constructs: opaque user errors,
  ErrPanic (rendered "panic: payload") and AggregateError (a slice of
  per-input errors, possibly nil entries);
- Go slices become Lists; a nil slice and an empty slice are observationally
  identical under len/index/range and are both embedded as [];
- the fan-in collector (collectResults) delivers one indexed settlement event
  per input, in real-time settlement order; it is embedded as the event list
  streamOf ps order, where order is the list of input indices in settlement
  order; the end of the list models the channel close that collectResults
  performs once every observer has finished;
- each combinator generator loop (All, Any, Race, AllSettled) is transcribed
  line by line as a recursive function over that event list;
- New runs a generator in a goroutine guarded by handlePanic; a generator
  behaviour is embedded as GenOutcome (normal return of a value/error pair,
  or a panic with a payload rendered by fmt as a string), and New maps it to
  the final settled state of the returned promise.
-/

namespace Promises

/-- Error values constructed by the library or supplied by users. A user error
is opaque and identified by its message; panicErr embeds ErrPanic (errors.go)
whose Value field is kept in its fmt rendering; aggregate embeds
AggregateError (errors.go), a per-input list of nil-able errors. -/
inductive ErrVal : Type where
  | user (msg : String)
  | panicErr (payload : String)
  | aggregate (errs : List (Option ErrVal))

/-- A Go error value: none is the nil error. -/
abbrev GoError := Option ErrVal

mutual

/-- Embeds the Error() methods of errors.go: a user error returns its message,
ErrPanic returns "panic: " followed by the fmt rendering of the payload, and
AggregateError joins the non-nil messages with a newline via a string builder,
falling back to "empty error" when nothing was written. -/
def errMessage : ErrVal → String
  | .user m => m
  | .panicErr payload => "panic: " ++ payload
  | .aggregate errs =>
    let b := errBuild errs ""
    if b.isEmpty then "empty error" else b

/-- Embeds the strings.Builder loop inside AggregateError.Error: nil entries
are skipped, and a newline separates entries once the builder is non-empty. -/
def errBuild : List (Option ErrVal) → String → String
  | [], b => b
  | none :: rest, b => errBuild rest b
  | some e :: rest, b =>
    errBuild rest (if b.isEmpty then errMessage e else b ++ "\n" ++ errMessage e)

end

/-- Embeds struct Result of aggregates.go: the (value, error) outcome of one
settled promise. -/
structure Result (T : Type) where
  Value : T
  Err : GoError

/-- Embeds struct iResult of aggregates.go: a settlement event of the
collector, carrying the input index and that input settled outcome (the
embedded Result is flattened into two fields). -/
structure iResult (T : Type) where
  Index : Nat
  Value : T
  Err : GoError

/-- Embeds struct impl of the promise source file: value and err are the
settlement slots (starting at the Go zero value and nil), and done = true
means the done channel has been closed. -/
structure impl (T : Type) where
  value : T
  err : GoError
  done : Bool

variable {T P A : Type}

/-- Embeds WithResolvers: a fresh promise state, with the done channel still
open and the slots at their zero values. The Go zero value of T is passed
explicitly as zr. The two resolver closures are resolve and reject below,
partially applied to this state. -/
def WithResolvers (zr : T) : impl T :=
  { value := zr, err := none, done := false }

/-- Embeds the Wait method: blocks until the done channel is closed, then
returns (value, err). A blocked Wait is represented by none. -/
def Wait (p : impl T) : Option (T × GoError) :=
  if p.done then some (p.value, p.err) else none

/-- Embeds the resolve method for one entire uninterleaved call: the select
sees the closed done channel and does nothing, or takes the default branch,
stores the value and closes the channel. -/
def resolve (v : T) (p : impl T) : impl T :=
  if p.done then p else { p with value := v, done := true }

/-- Embeds the reject method for one entire uninterleaved call, symmetric to
resolve on the err slot. -/
def reject (e : GoError) (p : impl T) : impl T :=
  if p.done then p else { p with err := e, done := true }

/-- Embeds Resolve: WithResolvers followed by resolve(value). -/
def Resolve (zr v : T) : impl T :=
  resolve v (WithResolvers zr)

/-- Embeds Reject: WithResolvers followed by reject(err). -/
def Reject (zr : T) (e : GoError) : impl T :=
  reject e (WithResolvers zr)

/-- One invocation of either resolver function of a promise. -/
inductive SettleOp (T : Type) where
  | resolveOp (v : T)
  | rejectOp (e : GoError)

/-- Applies one resolver invocation to a promise state. -/
def applyOp : SettleOp T → impl T → impl T
  | .resolveOp v, p => resolve v p
  | .rejectOp e, p => reject e p

/-- Applies a sequence of resolver invocations in order. -/
def applyOps (ops : List (SettleOp T)) (p : impl T) : impl T :=
  ops.foldl (fun q o => applyOp o q) p

/-- Behaviour of a generator function passed to New: either a normal return
of a (value, error) pair, or a panic whose payload is kept in its fmt
rendering. -/
inductive GenOutcome (T : Type) where
  | ret (value : T) (err : GoError)
  | panicked (payload : String)

/-- Embeds New together with the handlePanic guard of errors.go, giving the
final settled state of the returned promise once the generator goroutine has
finished: a nil generator resolves with the zero value at once; a normal
return rejects with a non-nil error or resolves with the value; a panic is
recovered by handlePanic, which rejects with ErrPanic wrapping the payload. -/
def New (zr : T) : Option (GenOutcome T) → impl T
  | none => resolve zr (WithResolvers zr)
  | some (.ret v err) =>
    match err with
    | some e => reject (some e) (WithResolvers zr)
    | none => resolve v (WithResolvers zr)
  | some (.panicked payload) => reject (some (.panicErr payload)) (WithResolvers zr)

/-- Embeds Then: New is run on the closure that waits for p and, on a nil
error, feeds the value to gen. The argument pOut is the observed outcome of
the upstream promise, none while it is unsettled (then the closure is still
blocked in Wait and the derived promise is still fresh). A panic raised by
gen propagates as the panic of the closure. -/
def Then (zrP : P) (pOut : Option (Result T)) (gen : T → GenOutcome P) : impl P :=
  match pOut with
  | none => WithResolvers zrP
  | some out =>
    New zrP (some (match out.Err with
      | some e => .ret zrP (some e)
      | none => gen out.Value))

/-- Zero value of the Result structure: Go zero value and nil error. -/
def zeroRes (zr : T) : Result T :=
  { Value := zr, Err := none }

/-- Event stream of collectResults: one iResult per element of order, where
order lists the input indices in real-time settlement order and ps holds the
eventual outcome of every input. Each observer goroutine waits for its input,
reads its settled (value, err) via Wait and emits the indexed event. -/
def streamOf (zr : T) (ps : List (Result T)) (order : List Nat) : List (iResult T) :=
  order.map fun i =>
    { Index := i
      Value := (ps.getD i (zeroRes zr)).Value
      Err := (ps.getD i (zeroRes zr)).Err }

/-- Embeds the generator loop of All: count every event, return the event
error as soon as one is non-nil, otherwise store the value at the event
index, and break with the filled slice once all n inputs have settled. The
end of the list is the channel close. -/
def allLoop (n : Nat) : List (iResult T) → List T → Nat → List T × GoError
  | [], values, _ => (values, none)
  | r :: rest, values, settled =>
    match r.Err with
    | some e => ([], some e)
    | none =>
      let values := values.set r.Index r.Value
      if settled + 1 = n then (values, none)
      else allLoop n rest values (settled + 1)

/-- Embeds All: zero inputs resolve immediately with the nil slice; otherwise
New runs the loop above over the collector events, on a value slice
pre-sized to n zero values. -/
def All (zr : T) (ps : List (Result T)) (order : List Nat) : impl (List T) :=
  if ps.length = 0 then Resolve [] []
  else
    let g := allLoop ps.length (streamOf zr ps order) (List.replicate ps.length zr) 0
    New [] (some (.ret g.1 g.2))

/-- Embeds the generator loop of Any: return the event value as soon as one
error is nil, otherwise store the error at the event index, and break with
AggregateError over the filled error slice once all n inputs have settled. -/
def anyLoop (n : Nat) (zr : T) : List (iResult T) → List GoError → Nat → T × GoError
  | [], errs, _ => (zr, some (.aggregate errs))
  | r :: rest, errs, settled =>
    match r.Err with
    | none => (r.Value, none)
    | some e =>
      let errs := errs.set r.Index (some e)
      if settled + 1 = n then (zr, some (.aggregate errs))
      else anyLoop n zr rest errs (settled + 1)

/-- Embeds Any: zero inputs reject immediately with an empty AggregateError;
otherwise New runs the loop above over the collector events, on an error
slice pre-sized to n nil errors. -/
def Any (zr : T) (ps : List (Result T)) (order : List Nat) : impl T :=
  if ps.length = 0 then Reject zr (some (.aggregate []))
  else
    let g := anyLoop ps.length zr (streamOf zr ps order) (List.replicate ps.length none) 0
    New zr (some (.ret g.1 g.2))

/-- Embeds the generator loop of Race: return the first event outcome; the
fallthrough after the loop is unreachable for non-empty inputs. -/
def raceLoop (zr : T) : List (iResult T) → T × GoError
  | [] => (zr, none)
  | r :: _ => (r.Value, r.Err)

/-- Embeds Race: zero inputs return a fresh WithResolvers promise whose two
resolver functions are discarded, so no transition is ever applied to it;
otherwise New settles with the first collector event. -/
def Race (zr : T) (ps : List (Result T)) (order : List Nat) : impl T :=
  if ps.length = 0 then WithResolvers zr
  else
    let g := raceLoop zr (streamOf zr ps order)
    New zr (some (.ret g.1 g.2))

/-- Embeds the generator loop of AllSettled: store every event Result at the
event index and return the slice when the stream closes; the loop never
returns early and never produces an error. -/
def allSettledLoop : List (iResult T) → List (Result T) → List (Result T)
  | [], results => results
  | r :: rest, results =>
    allSettledLoop rest (results.set r.Index { Value := r.Value, Err := r.Err })

/-- Embeds AllSettled: zero inputs resolve immediately with the nil slice;
otherwise New runs the loop above on a result slice pre-sized to n zero
Results, and returns it with a nil error. -/
def AllSettled (zr : T) (ps : List (Result T)) (order : List Nat) : impl (List (Result T)) :=
  if ps.length = 0 then Resolve [] []
  else
    let results := allSettledLoop (streamOf zr ps order)
      (List.replicate ps.length (zeroRes zr))
    New [] (some (.ret results none))

/-- One caller of a resolver function, used to analyse interleaved executions
of resolve and reject: a resolver carries the value it passes to resolve, a
rejecter the error it passes to reject. -/
inductive Caller (T : Type) where
  | resolver (v : T)
  | rejecter (e : GoError)

/-- State of a set of concurrent resolver calls on one shared promise: the
shared impl state, one program counter per caller (0 = before the select,
1 = the select took the default branch, 2 = finished) and whether a runtime
fault (close of an already closed channel) has occurred. -/
structure ConcState (T : Type) where
  promise : impl T
  pcs : List Nat
  panicked : Bool

/-- Field write performed inside the default branch: resolve stores the
value, reject stores the error, before the close of the done channel. -/
def commitWrite (c : Caller T) (p : impl T) : impl T :=
  match c with
  | .resolver v => { p with value := v }
  | .rejecter e => { p with err := e }

/-- One interleaving step of caller tid, decomposing the resolve/reject body
into its two non-atomic parts exactly as written in the source: first the
select, which observes whether done is closed and either finishes (ready
case) or commits to the default branch; then the default branch body, which
writes the field and calls close on the done channel, a call that faults at
runtime when another caller closed the channel in between. -/
def stepThread (callers : List (Caller T)) (s : ConcState T) (tid : Nat) : ConcState T :=
  match callers[tid]? with
  | none => s
  | some c =>
    match s.pcs.getD tid 2 with
    | 0 =>
      if s.promise.done then { s with pcs := s.pcs.set tid 2 }
      else { s with pcs := s.pcs.set tid 1 }
    | 1 =>
      let p := commitWrite c s.promise
      if p.done then { s with promise := p, pcs := s.pcs.set tid 2, panicked := true }
      else { s with promise := { p with done := true }, pcs := s.pcs.set tid 2 }
    | _ => s

/-- Runs a schedule (a list of caller ids, each id consuming one step of that
caller) against a fresh promise. -/
def runSched (zr : T) (callers : List (Caller T)) (sched : List Nat) : ConcState T :=
  sched.foldl (stepThread callers)
    { promise := WithResolvers zr
      pcs := List.replicate callers.length 0
      panicked := false }

/-- Concrete derivation function for examples: adds one, nil error. -/
def genInc : Nat → GenOutcome Nat := fun v => .ret (v + 1) none

/-- Concrete derivation function for examples: panics with payload "boom". -/
def genBoom : Nat → GenOutcome Nat := fun _ => .panicked "boom"

section Lemmas

/-- Writes f i at position i for every i in l, left to right; the written
value depends only on the index, which makes the result independent of the
write order. -/
def writeBy (f : Nat → A) (l : List Nat) (vs : List A) : List A :=
  l.foldl (fun acc i => acc.set i (f i)) vs

theorem writeBy_nil (f : Nat → A) (vs : List A) : writeBy f [] vs = vs := rfl

theorem writeBy_cons (f : Nat → A) (i : Nat) (l : List Nat) (vs : List A) :
    writeBy f (i :: l) vs = writeBy f l (vs.set i (f i)) := rfl

theorem writeBy_length (f : Nat → A) (l : List Nat) (vs : List A) :
    (writeBy f l vs).length = vs.length := by
  induction l generalizing vs with
  | nil => rfl
  | cons i l ih => rw [writeBy_cons, ih, List.length_set]

theorem writeBy_getElem? (f : Nat → A) (l : List Nat) (vs : List A) (j : Nat)
    (hj : j < vs.length) :
    (writeBy f l vs)[j]? = if j ∈ l then some (f j) else vs[j]? := by
  induction l generalizing vs with
  | nil => simp [writeBy_nil]
  | cons i l ih =>
    rw [writeBy_cons, ih (vs.set i (f i)) (by simpa using hj)]
    by_cases hjl : j ∈ l
    · simp [hjl]
    · by_cases hji : j = i
      · subst hji
        simp [hjl, List.getElem?_set, hj]
      · simp [hjl, hji, List.getElem?_set, Ne.symm hji]

theorem writeBy_perm_eq_map (g : Result T → A) (zr : T) (ps : List (Result T))
    (d : A) (order : List Nat) (hperm : order.Perm (List.range ps.length)) :
    writeBy (fun i => g (ps.getD i (zeroRes zr))) order
      (List.replicate ps.length d) = ps.map g := by
  apply List.ext_getElem
  · rw [writeBy_length, List.length_replicate, List.length_map]
  · intro n h1 h2
    rw [writeBy_length, List.length_replicate] at h1
    have hmem : n ∈ order := by
      rw [hperm.mem_iff, List.mem_range]
      exact h1
    have hq := writeBy_getElem? (fun i => g (ps.getD i (zeroRes zr))) order
      (List.replicate ps.length d) n (by simpa using h1)
    rw [if_pos hmem] at hq
    have hlhs : (writeBy (fun i => g (ps.getD i (zeroRes zr))) order
        (List.replicate ps.length d))[n]? =
        some ((writeBy (fun i => g (ps.getD i (zeroRes zr))) order
          (List.replicate ps.length d))[n]) := by
      exact List.getElem?_eq_getElem (by rw [writeBy_length, List.length_replicate]; exact h1)
    rw [hlhs] at hq
    have hval : (writeBy (fun i => g (ps.getD i (zeroRes zr))) order
        (List.replicate ps.length d))[n] = g (ps.getD n (zeroRes zr)) :=
      Option.some.inj hq
    rw [hval, List.getElem_map, List.getD_eq_getElem ps (zeroRes zr) h1]

theorem streamOf_cons (zr : T) (ps : List (Result T)) (i : Nat) (l : List Nat) :
    streamOf zr ps (i :: l) =
      { Index := i
        Value := (ps.getD i (zeroRes zr)).Value
        Err := (ps.getD i (zeroRes zr)).Err } :: streamOf zr ps l := rfl

theorem allLoop_nil (n : Nat) (vs : List T) (settled : Nat) :
    allLoop n ([] : List (iResult T)) vs settled = (vs, none) := rfl

theorem allLoop_cons_some (n i : Nat) (v : T) (e : ErrVal) (rest : List (iResult T))
    (vs : List T) (settled : Nat) :
    allLoop n ({ Index := i, Value := v, Err := some e } :: rest) vs settled =
      ([], some e) := rfl

theorem allLoop_cons_none (n i : Nat) (v : T) (rest : List (iResult T))
    (vs : List T) (settled : Nat) :
    allLoop n ({ Index := i, Value := v, Err := none } :: rest) vs settled =
      (if settled + 1 = n then (vs.set i v, none)
       else allLoop n rest (vs.set i v) (settled + 1)) := rfl

theorem anyLoop_nil (n : Nat) (zr : T) (errs : List GoError) (settled : Nat) :
    anyLoop n zr ([] : List (iResult T)) errs settled =
      (zr, some (.aggregate errs)) := rfl

theorem anyLoop_cons_none (n i : Nat) (zr v : T) (rest : List (iResult T))
    (errs : List GoError) (settled : Nat) :
    anyLoop n zr ({ Index := i, Value := v, Err := none } :: rest) errs settled =
      (v, none) := rfl

theorem anyLoop_cons_some (n i : Nat) (zr v : T) (e : ErrVal) (rest : List (iResult T))
    (errs : List GoError) (settled : Nat) :
    anyLoop n zr ({ Index := i, Value := v, Err := some e } :: rest) errs settled =
      (if settled + 1 = n then (zr, some (.aggregate (errs.set i (some e))))
       else anyLoop n zr rest (errs.set i (some e)) (settled + 1)) := rfl

theorem allSettledLoop_cons (i : Nat) (v : T) (e : GoError) (rest : List (iResult T))
    (results : List (Result T)) :
    allSettledLoop ({ Index := i, Value := v, Err := e } :: rest) results =
      allSettledLoop rest (results.set i { Value := v, Err := e }) := rfl

theorem allLoop_fulfilled_eq (zr : T) (ps : List (Result T)) (n : Nat) (rem : List Nat)
    (vs : List T) (settled : Nat)
    (hful : ∀ i ∈ rem, (ps.getD i (zeroRes zr)).Err = none)
    (hcount : settled + rem.length = n) :
    allLoop n (streamOf zr ps rem) vs settled =
      (writeBy (fun i => (ps.getD i (zeroRes zr)).Value) rem vs, none) := by
  induction rem generalizing vs settled with
  | nil => rw [writeBy_nil]; rfl
  | cons i l ih =>
    have hi : (ps.getD i (zeroRes zr)).Err = none := hful i (List.mem_cons_self i l)
    rw [streamOf_cons, hi, allLoop_cons_none]
    by_cases hbreak : settled + 1 = n
    · have hl : l = [] := List.length_eq_zero.mp
        (by simp only [List.length_cons] at hcount; omega)
      subst hl
      rw [if_pos hbreak]
      simp only [writeBy_cons, writeBy_nil]
    · rw [if_neg hbreak]
      have hrec := ih (vs.set i (ps.getD i (zeroRes zr)).Value) (settled + 1)
        (fun k hk => hful k (List.mem_cons_of_mem i hk))
        (by simp only [List.length_cons] at hcount; omega)
      rw [hrec]
      simp only [writeBy_cons]

theorem allLoop_reject_eq (zr : T) (ps : List (Result T)) (n : Nat)
    (pre : List Nat) (j : Nat) (post : List Nat) (vs : List T) (settled : Nat) (e : ErrVal)
    (hful : ∀ i ∈ pre, (ps.getD i (zeroRes zr)).Err = none)
    (hlt : settled + pre.length < n)
    (hj : (ps.getD j (zeroRes zr)).Err = some e) :
    allLoop n (streamOf zr ps (pre ++ j :: post)) vs settled = ([], some e) := by
  induction pre generalizing vs settled with
  | nil =>
    rw [List.nil_append, streamOf_cons, hj, allLoop_cons_some]
  | cons i l ih =>
    have hi : (ps.getD i (zeroRes zr)).Err = none := hful i (List.mem_cons_self i l)
    rw [List.cons_append, streamOf_cons, hi, allLoop_cons_none]
    have hbreak : ¬ (settled + 1 = n) := by
      simp only [List.length_cons] at hlt
      omega
    rw [if_neg hbreak]
    exact ih (vs.set i (ps.getD i (zeroRes zr)).Value) (settled + 1)
      (fun k hk => hful k (List.mem_cons_of_mem i hk))
      (by simp only [List.length_cons] at hlt; omega)

theorem anyLoop_rejected_eq (zr : T) (ps : List (Result T)) (n : Nat) (rem : List Nat)
    (errs : List GoError) (settled : Nat)
    (hrej : ∀ i ∈ rem, (ps.getD i (zeroRes zr)).Err ≠ none)
    (hcount : settled + rem.length = n) :
    anyLoop n zr (streamOf zr ps rem) errs settled =
      (zr, some (.aggregate (writeBy (fun i => (ps.getD i (zeroRes zr)).Err) rem errs))) := by
  induction rem generalizing errs settled with
  | nil => rw [writeBy_nil]; rfl
  | cons i l ih =>
    obtain ⟨e, he⟩ := Option.ne_none_iff_exists'.mp (hrej i (List.mem_cons_self i l))
    rw [streamOf_cons, he, anyLoop_cons_some]
    by_cases hbreak : settled + 1 = n
    · have hl : l = [] := List.length_eq_zero.mp
        (by simp only [List.length_cons] at hcount; omega)
      subst hl
      rw [if_pos hbreak]
      simp only [writeBy_cons, writeBy_nil, he]
    · rw [if_neg hbreak]
      have hrec := ih (errs.set i (some e)) (settled + 1)
        (fun k hk => hrej k (List.mem_cons_of_mem i hk))
        (by simp only [List.length_cons] at hcount; omega)
      rw [hrec]
      simp only [writeBy_cons, he]

theorem anyLoop_first_fulfil_eq (zr : T) (ps : List (Result T)) (n : Nat)
    (pre : List Nat) (j : Nat) (post : List Nat) (errs : List GoError) (settled : Nat)
    (hrej : ∀ i ∈ pre, (ps.getD i (zeroRes zr)).Err ≠ none)
    (hlt : settled + pre.length < n)
    (hj : (ps.getD j (zeroRes zr)).Err = none) :
    anyLoop n zr (streamOf zr ps (pre ++ j :: post)) errs settled =
      ((ps.getD j (zeroRes zr)).Value, none) := by
  induction pre generalizing errs settled with
  | nil =>
    rw [List.nil_append, streamOf_cons, hj, anyLoop_cons_none]
  | cons i l ih =>
    obtain ⟨e, he⟩ := Option.ne_none_iff_exists'.mp (hrej i (List.mem_cons_self i l))
    rw [List.cons_append, streamOf_cons, he, anyLoop_cons_some]
    have hbreak : ¬ (settled + 1 = n) := by
      simp only [List.length_cons] at hlt
      omega
    rw [if_neg hbreak]
    exact ih (errs.set i (some e)) (settled + 1)
      (fun k hk => hrej k (List.mem_cons_of_mem i hk))
      (by simp only [List.length_cons] at hlt; omega)

theorem allSettledLoop_eq (zr : T) (ps : List (Result T)) (rem : List Nat)
    (results : List (Result T)) :
    allSettledLoop (streamOf zr ps rem) results =
      writeBy (fun i => ps.getD i (zeroRes zr)) rem results := by
  induction rem generalizing results with
  | nil => rfl
  | cons i l ih =>
    rw [streamOf_cons, allSettledLoop_cons, writeBy_cons]
    exact ih (results.set i (ps.getD i (zeroRes zr)))

theorem applyOp_of_done (o : SettleOp T) (p : impl T) (h : p.done = true) :
    applyOp o p = p := by
  cases o <;> simp [applyOp, resolve, reject, h]

theorem applyOp_fresh_done (zr : T) (o : SettleOp T) :
    (applyOp o (WithResolvers zr)).done = true := by
  cases o <;> simp [applyOp, resolve, reject, WithResolvers]

end Lemmas

section Claims

/-- C1: for every promise created by WithResolvers, after the first call to
resolve or reject, any further sequence of resolve/reject calls (in either
order, from either function) is a no-op: the state is unchanged, and every
subsequent Wait returns the outcome recorded by the first call, so the
settled value/error never change. -/
theorem first_settlement_wins (zr : T) (o : SettleOp T) (ops : List (SettleOp T)) :
    applyOps ops (applyOp o (WithResolvers zr)) = applyOp o (WithResolvers zr) ∧
    Wait (applyOps ops (applyOp o (WithResolvers zr))) =
      some ((applyOp o (WithResolvers zr)).value, (applyOp o (WithResolvers zr)).err) := by
  have hdone := applyOp_fresh_done zr o
  have hfix : ∀ q : impl T, q.done = true → applyOps ops q = q := by
    intro q hq
    induction ops with
    | nil => rfl
    | cons o2 rest ih =>
      show applyOps rest (applyOp o2 q) = q
      rw [applyOp_of_done o2 q hq]
      exact ih
  refine ⟨hfix _ hdone, ?_⟩
  rw [hfix _ hdone]
  simp [Wait, hdone]

/-- C2: for a non-empty input list whose promises all fulfill, All run over
any settlement order fulfills with the values in input order and a nil
error; and whenever the first observed rejection e arrives after any
distinct fulfilled observations, All rejects with exactly e whatever events
would come later, so it does not wait for inputs that have not settled. -/
theorem All_spec (zr : T) (ps : List (Result T)) (hne : ps ≠ []) :
    (∀ order, order.Perm (List.range ps.length) → (∀ r ∈ ps, r.Err = none) →
      Wait (All zr ps order) = some (ps.map Result.Value, none)) ∧
    (∀ pre j post e,
      (∀ i ∈ pre, i < ps.length ∧ (ps.getD i (zeroRes zr)).Err = none) →
      pre.Nodup → j < ps.length → j ∉ pre →
      (ps.getD j (zeroRes zr)).Err = some e →
      Wait (All zr ps (pre ++ j :: post)) = some ([], some e)) := by
  have hlen0 : ¬ ps.length = 0 := fun h => hne (List.length_eq_zero.mp h)
  constructor
  · intro order hperm hful
    have hloop := allLoop_fulfilled_eq zr ps ps.length order
      (List.replicate ps.length zr) 0
      (fun i hi => by
        have hilt : i < ps.length := List.mem_range.mp (hperm.mem_iff.mp hi)
        rw [List.getD_eq_getElem ps (zeroRes zr) hilt]
        exact hful ps[i] (List.getElem_mem hilt))
      (by rw [hperm.length_eq, List.length_range]; omega)
    have hw := writeBy_perm_eq_map Result.Value zr ps zr order hperm
    simp only [All, if_neg hlen0]
    rw [hloop, hw]
    rfl
  · intro pre j post e hpre hnd hj hjpre hje
    have hlt : 0 + pre.length < ps.length := by
      have hnd2 : (j :: pre).Nodup := List.nodup_cons.mpr ⟨hjpre, hnd⟩
      have hsub : (j :: pre) ⊆ List.range ps.length := by
        intro x hx
        rcases List.mem_cons.mp hx with h | h
        · subst h; exact List.mem_range.mpr hj
        · exact List.mem_range.mpr (hpre x h).1
      have hle := (List.subperm_of_subset hnd2 hsub).length_le
      simp only [List.length_cons, List.length_range] at hle
      omega
    have hloop := allLoop_reject_eq zr ps ps.length pre j post
      (List.replicate ps.length zr) 0 e (fun i hi => (hpre i hi).2) hlt hje
    simp only [All, if_neg hlen0]
    rw [hloop]
    rfl

/-- Witness for All_spec: with the two inputs fulfilling with 1 and 2 and
settling in reverse order, All fulfills with [1, 2] in input order; with the
second input rejecting after a fulfilled first observation, All rejects with
that error ignoring the later event 5. -/
theorem All_spec_witness :
    Wait (All 0 [{ Value := 1, Err := none }, { Value := 2, Err := none }] [1, 0]) =
      some ([1, 2], none) ∧
    Wait (All 0 [{ Value := 1, Err := none },
      { Value := 0, Err := some (.user "boom") }] ([0] ++ 1 :: [5])) =
      some ([], some (.user "boom")) := by
  constructor
  · exact (All_spec 0 [{ Value := 1, Err := none }, { Value := 2, Err := none }]
      (List.cons_ne_nil _ _)).1 [1, 0] (by decide)
      (by intro r hr; fin_cases hr <;> rfl)
  · exact (All_spec 0 [{ Value := 1, Err := none },
      { Value := 0, Err := some (.user "boom") }]
      (List.cons_ne_nil _ _)).2 [0] 1 [5] (.user "boom")
      (by intro i hi; fin_cases hi; exact ⟨by decide, rfl⟩)
      (by simp) (by decide) (by simp) rfl

/-- C3: for a non-empty input list, as soon as one input fulfills (after any
distinct rejected observations) Any fulfills with that first fulfillment
value whatever events would come later, so it does not wait for slower
inputs; and when all inputs reject, Any rejects with an AggregateError whose
entry i is the rejection of input i (indexed by input position, not arrival
order) and whose length equals the number of inputs. -/
theorem Any_spec (zr : T) (ps : List (Result T)) (hne : ps ≠ []) :
    (∀ pre j post,
      (∀ i ∈ pre, i < ps.length ∧ (ps.getD i (zeroRes zr)).Err ≠ none) →
      pre.Nodup → j < ps.length → j ∉ pre →
      (ps.getD j (zeroRes zr)).Err = none →
      Wait (Any zr ps (pre ++ j :: post)) =
        some ((ps.getD j (zeroRes zr)).Value, none)) ∧
    (∀ order, order.Perm (List.range ps.length) → (∀ r ∈ ps, r.Err ≠ none) →
      Wait (Any zr ps order) = some (zr, some (.aggregate (ps.map Result.Err))) ∧
      (ps.map Result.Err).length = ps.length) := by
  have hlen0 : ¬ ps.length = 0 := fun h => hne (List.length_eq_zero.mp h)
  constructor
  · intro pre j post hpre hnd hj hjpre hje
    have hlt : 0 + pre.length < ps.length := by
      have hnd2 : (j :: pre).Nodup := List.nodup_cons.mpr ⟨hjpre, hnd⟩
      have hsub : (j :: pre) ⊆ List.range ps.length := by
        intro x hx
        rcases List.mem_cons.mp hx with h | h
        · subst h; exact List.mem_range.mpr hj
        · exact List.mem_range.mpr (hpre x h).1
      have hle := (List.subperm_of_subset hnd2 hsub).length_le
      simp only [List.length_cons, List.length_range] at hle
      omega
    have hloop := anyLoop_first_fulfil_eq zr ps ps.length pre j post
      (List.replicate ps.length none) 0 (fun i hi => (hpre i hi).2) hlt hje
    simp only [Any, if_neg hlen0]
    rw [hloop]
    rfl
  · intro order hperm hrej
    have hloop := anyLoop_rejected_eq zr ps ps.length order
      (List.replicate ps.length none) 0
      (fun i hi => by
        have hilt : i < ps.length := List.mem_range.mp (hperm.mem_iff.mp hi)
        rw [List.getD_eq_getElem ps (zeroRes zr) hilt]
        exact hrej ps[i] (List.getElem_mem hilt))
      (by rw [hperm.length_eq, List.length_range]; omega)
    have hw := writeBy_perm_eq_map Result.Err zr ps none order hperm
    refine ⟨?_, by rw [List.length_map]⟩
    simp only [Any, if_neg hlen0]
    rw [hloop, hw]
    rfl

/-- Witness for Any_spec: with input 0 rejecting first and input 1 fulfilling
with 7, Any fulfills with 7 ignoring the later event 9; with both inputs
rejecting, observed in reverse order, Any rejects with the AggregateError
entries in input order. -/
theorem Any_spec_witness :
    Wait (Any 0 [{ Value := 0, Err := some (.user "a") }, { Value := 7, Err := none }]
      ([0] ++ 1 :: [9])) = some (7, none) ∧
    Wait (Any 0 [{ Value := 0, Err := some (.user "a") },
      { Value := 0, Err := some (.user "b") }] [1, 0]) =
      some (0, some (.aggregate [some (.user "a"), some (.user "b")])) := by
  constructor
  · exact (Any_spec 0 [{ Value := 0, Err := some (.user "a") },
      { Value := 7, Err := none }] (List.cons_ne_nil _ _)).1 [0] 1 [9]
      (by intro i hi; fin_cases hi; exact ⟨by decide, by intro h; exact Option.noConfusion h⟩)
      (by simp) (by decide) (by simp) rfl
  · exact ((Any_spec 0 [{ Value := 0, Err := some (.user "a") },
      { Value := 0, Err := some (.user "b") }] (List.cons_ne_nil _ _)).2 [1, 0]
      (by decide)
      (by intro r hr; fin_cases hr <;> (intro h; exact Option.noConfusion h))).1

/-- C4: for every list of inputs, AllSettled over any full settlement order
fulfills (never rejects) with exactly one Result per input, in input order,
each equal to that input own outcome, regardless of the settlement order. -/
theorem AllSettled_spec (zr : T) (ps : List (Result T)) (order : List Nat)
    (hperm : order.Perm (List.range ps.length)) :
    Wait (AllSettled zr ps order) = some (ps, none) := by
  by_cases h0 : ps.length = 0
  · have hps : ps = [] := List.length_eq_zero.mp h0
    subst hps
    have hord : order = [] := List.length_eq_zero.mp
      (by rw [hperm.length_eq]; simp)
    subst hord
    rfl
  · have hloop := allSettledLoop_eq zr ps order (List.replicate ps.length (zeroRes zr))
    have hw := writeBy_perm_eq_map id zr ps (zeroRes zr) order hperm
    simp only [id] at hw
    rw [List.map_id] at hw
    simp only [AllSettled, if_neg h0]
    rw [hloop, hw]
    rfl

/-- Witness for AllSettled_spec: two inputs, one fulfilled and one rejected,
observed in reverse order, give the two Results in input order with a nil
top-level error. -/
theorem AllSettled_spec_witness :
    Wait (AllSettled 0 [{ Value := 1, Err := none },
      { Value := 0, Err := some (.user "z") }] [1, 0]) =
      some ([{ Value := 1, Err := none }, { Value := 0, Err := some (.user "z") }], none) :=
  AllSettled_spec 0 [{ Value := 1, Err := none },
    { Value := 0, Err := some (.user "z") }] [1, 0] (by decide)

/-- C5: the check-and-commit inside resolve/reject is not one atomic step.
With two concurrent resolve calls, the schedule [0, 1, 0, 1] lets both
callers pass the select check before either commits; the second caller then
overwrites the committed value and its close of the already closed done
channel is a runtime fault. So a concurrent loser is neither a no-op nor
fault-free, contradicting the claim; this run evaluates the interleaving. -/
theorem resolve_check_then_commit_races :
    (runSched (0 : Nat) [Caller.resolver 1, Caller.resolver 2] [0, 1, 0, 1]).panicked = true ∧
    (runSched (0 : Nat) [Caller.resolver 1, Caller.resolver 2] [0, 1, 0, 1]).promise.value = 2 ∧
    (runSched (0 : Nat) [Caller.resolver 1, Caller.resolver 2] [0, 1, 0, 1]).promise.done = true :=
  ⟨rfl, rfl, rfl⟩

/-- Sequential contrast for the interleaving model: when the first caller
finishes both steps before the second starts, the second call is a genuine
no-op, no fault occurs and the first value survives, matching the
uninterleaved semantics of resolve. -/
theorem runSched_sequential_second_noop :
    (runSched (0 : Nat) [Caller.resolver 1, Caller.resolver 2] [0, 0, 1, 1]).panicked = false ∧
    (runSched (0 : Nat) [Caller.resolver 1, Caller.resolver 2] [0, 0, 1, 1]).promise.value = 1 :=
  ⟨rfl, rfl⟩

/-- C6: a generator passed to New that panics is intercepted by handlePanic:
the promise rejects with ErrPanic wrapping the original payload, whose
message renders as "panic: " followed by the payload; in particular a
generator panicking with "boom" yields a promise whose Wait returns an error
whose message is exactly (hence contains) "panic: boom". -/
theorem New_panic_spec (zr : T) (payload : String) :
    New zr (some (.panicked payload)) = reject (some (.panicErr payload)) (WithResolvers zr) ∧
    Wait (New zr (some (.panicked payload))) = some (zr, some (.panicErr payload)) ∧
    errMessage (.panicErr payload) = "panic: " ++ payload ∧
    Wait (New (0 : Nat) (some (.panicked "boom"))) = some (0, some (.panicErr "boom")) ∧
    errMessage (.panicErr "boom") = "panic: boom" := by
  refine ⟨rfl, rfl, ?_, rfl, ?_⟩
  · simp [errMessage]
  · simp [errMessage]

/-- C7: on zero inputs, All returns the already fulfilled Resolve promise
with the empty sequence, Any returns the already rejected Reject promise
carrying an AggregateError of length 0, and AllSettled returns the already
fulfilled Resolve promise with the empty sequence; each returned state is
settled, so Wait returns at once without blocking. -/
theorem empty_inputs_spec (zr : T) (order : List Nat) :
    All zr ([] : List (Result T)) order = Resolve [] [] ∧
    (All zr ([] : List (Result T)) order).done = true ∧
    Wait (All zr ([] : List (Result T)) order) = some ([], none) ∧
    Any zr ([] : List (Result T)) order = Reject zr (some (.aggregate [])) ∧
    (Any zr ([] : List (Result T)) order).done = true ∧
    (∃ errs, Wait (Any zr ([] : List (Result T)) order) =
      some (zr, some (.aggregate errs)) ∧ errs.length = 0) ∧
    AllSettled zr ([] : List (Result T)) order = Resolve [] [] ∧
    (AllSettled zr ([] : List (Result T)) order).done = true ∧
    Wait (AllSettled zr ([] : List (Result T)) order) = some ([], none) :=
  ⟨rfl, rfl, rfl, rfl, rfl, ⟨[], rfl, rfl⟩, rfl, rfl, rfl⟩

/-- C8: Race on zero inputs returns the fresh WithResolvers promise and
discards its two resolver functions, so the returned promise is unsettled,
its Wait blocks and its done channel is never closed: with no resolver
escaping, no transition is ever applied and it never settles. -/
theorem Race_empty_never_settles (zr : T) (order : List Nat) :
    Race zr ([] : List (Result T)) order = WithResolvers zr ∧
    (Race zr ([] : List (Result T)) order).done = false ∧
    Wait (Race zr ([] : List (Result T)) order) = none ∧
    applyOps [] (Race zr ([] : List (Result T)) order) = WithResolvers zr :=
  ⟨rfl, rfl, rfl, rfl⟩

/-- C9: Then waits on the upstream promise (while it is unsettled the
derived promise is unsettled); if it rejected with e, the derived promise
rejects with the same e and the result does not depend on the function, so
it is never invoked; if it fulfilled with v, the derived promise settles
exactly as New does on the outcome of gen v, a panic of gen included, which
is captured as an ErrPanic rejection. -/
theorem Then_spec (zrP : P) (out : Result T) (gen gen2 : T → GenOutcome P) :
    Wait (Then zrP (none : Option (Result T)) gen) = none ∧
    (∀ e, out.Err = some e →
      Then zrP (some out) gen = Then zrP (some out) gen2 ∧
      Wait (Then zrP (some out) gen) = some (zrP, some e)) ∧
    (out.Err = none → Then zrP (some out) gen = New zrP (some (gen out.Value))) ∧
    (∀ payload, out.Err = none → gen out.Value = .panicked payload →
      Wait (Then zrP (some out) gen) = some (zrP, some (.panicErr payload))) := by
  refine ⟨rfl, ?_, ?_, ?_⟩
  · intro e he
    constructor
    · simp only [Then, he]
    · simp only [Then, he]
      rfl
  · intro h0
    simp only [Then, h0]
  · intro payload h0 hp
    simp only [Then, h0, hp]
    rfl

/-- Witness for Then_spec: a rejected upstream propagates its error without
running the function; a fulfilled upstream with a panicking function rejects
with the captured panic. -/
theorem Then_spec_witness :
    Wait (Then 0 (some { Value := 5, Err := some (.user "x") }) genInc) =
      some (0, some (.user "x")) ∧
    Wait (Then 0 (some { Value := 5, Err := none }) genBoom) =
      some (0, some (.panicErr "boom")) := by
  constructor
  · exact ((Then_spec 0 { Value := 5, Err := some (.user "x") } genInc genBoom).2.1
      (.user "x") rfl).2
  · exact (Then_spec 0 { Value := 5, Err := none } genBoom genInc).2.2.2 "boom" rfl rfl

/-- C10: a generator that returns a non-nil error together with any value
(even a non-zero one) has the value discarded: New rejects with that error
and Wait returns the zero value of T paired with it, independent of the
returned value v. -/
theorem New_error_discards_value (zr v : T) (e : ErrVal) :
    New zr (some (.ret v (some e))) = reject (some e) (WithResolvers zr) ∧
    Wait (New zr (some (.ret v (some e)))) = some (zr, some e) :=
  ⟨rfl, rfl⟩

end Claims

end Promises
